import Mathlib

/-!
Verification development for the Cloudflare-Navihive mock navigation store
(src/src/API/mock.ts).  The file shallowly embeds the data model and the
operations of MockNavigationClient as pure Lean functions over an explicit
store state, and proves the testable properties of the specification.

Conventions of the embedding:
  - JavaScript numbers used as identifiers are modelled as Nat.  The source
    declares ids as optional (id?: number) and tests them only for
    truthiness (g.id || 0, if (importGroup.id), if (!newGroupId));
    undefined and 0 are falsy and behave identically at every use site in
    mock.ts, so a missing id is modelled as the value 0.
  - is_public is a number compared with 1 in the source, so it is a Nat.
  - Timestamps produced by new Date().toISOString() are opaque strings
    supplied to each operation as an explicit argument called now.
  - The JavaScript Map used for the id remapping table is modelled as an
    association list where set prepends the new binding and get returns the
    first binding, which is exactly the latest-set-wins behaviour of Map.
  - localStorage persistence (saveToStorage) has no observable effect on
    the store state and is dropped.
-/

namespace Navihive

/-- Model of Array.prototype.findIndex: index of the first element
satisfying the predicate, none when there is none (the source checks
the result with >= 0). -/
def findIdxP {α : Type} (p : α → Bool) : List α → Option Nat
  | [] => none
  | a :: as => if p a then some 0 else (findIdxP p as).map (· + 1)

/-- Model of JavaScript array indexing arr[i]: the element when the index
is in range, none otherwise. -/
def getAt {α : Type} : List α → Nat → Option α
  | [], _ => none
  | a :: _, 0 => some a
  | _ :: as, n + 1 => getAt as n

/-- Model of the in-place assignment arr[i] = b. -/
def setIdx {α : Type} : List α → Nat → α → List α
  | [], _, _ => []
  | _ :: as, 0, b => b :: as
  | a :: as, n + 1, b => a :: setIdx as n b

/-- Model of Map.prototype.get over the association-list model of a Map
(first binding wins, since set prepends). -/
def lookupP {α β : Type} [BEq α] (k : α) : List (α × β) → Option β
  | [] => none
  | (a, b) :: rest => if a == k then some b else lookupP k rest

/-- Group entity, after the snapshot shape of the specification:
{id, name, is_public, order_num, created_at, updated_at}. -/
structure Group where
  id : Nat
  name : String
  is_public : Nat
  order_num : Int
  created_at : String
  updated_at : String
deriving DecidableEq

/-- Site entity, after the snapshot shape of the specification:
{id, group_id, name, url, icon, description, notes, is_public, order_num,
created_at, updated_at}. -/
structure Site where
  id : Nat
  group_id : Nat
  name : String
  url : String
  icon : String
  description : String
  notes : String
  is_public : Nat
  order_num : Int
  created_at : String
  updated_at : String
deriving DecidableEq

/-- The live store: the module-level mockGroups, mockSites and mockConfigs
collections of mock.ts. -/
structure MockState where
  groups : List Group
  sites : List Site
  configs : List (String × String)
deriving DecidableEq

/-- The snapshot shape accepted by importData and produced by exportData. -/
structure ExportData where
  groups : List Group
  sites : List Site
  configs : List (String × String)
  version : String
  exportDate : String
deriving DecidableEq

/-- Statistics about the group phase of importData. -/
structure GroupStats where
  total : Nat
  created : Nat
  merged : Nat
deriving DecidableEq

/-- Statistics about the site phase of importData. -/
structure SiteStats where
  total : Nat
  created : Nat
  updated : Nat
  skipped : Nat
deriving DecidableEq

/-- The stats object returned by importData. -/
structure ImportStats where
  groups : GroupStats
  sites : SiteStats
deriving DecidableEq

/-- The result of importData.  In this pure embedding the catch branch of
the source (success false with an error string) is unreachable, so the
result always carries stats. -/
structure ImportResult where
  success : Bool
  stats : ImportStats
deriving DecidableEq

/-- TypeScript Partial of Group: each field independently present or
absent.  Merging with spread syntax overwrites exactly the present
fields. -/
structure GroupPatch where
  id : Option Nat := none
  name : Option String := none
  is_public : Option Nat := none
  order_num : Option Int := none
  created_at : Option String := none
  updated_at : Option String := none
deriving DecidableEq

/-- TypeScript Partial of Site. -/
structure SitePatch where
  id : Option Nat := none
  group_id : Option Nat := none
  name : Option String := none
  url : Option String := none
  icon : Option String := none
  description : Option String := none
  notes : Option String := none
  is_public : Option Nat := none
  order_num : Option Int := none
  created_at : Option String := none
  updated_at : Option String := none
deriving DecidableEq

/-- Math.max(0, ...ids) + 1, the fresh-id rule of createGroup, createSite
and the creation branches of importData. -/
def nextId (ids : List Nat) : Nat :=
  ids.foldl (fun a b => max a b) 0 + 1

/-- Spread merge of updateGroup: {...existing, ...patch, updated_at: now}. -/
def mergeGroupPatch (e : Group) (p : GroupPatch) (now : String) : Group :=
  { id := p.id.getD e.id
    name := p.name.getD e.name
    is_public := p.is_public.getD e.is_public
    order_num := p.order_num.getD e.order_num
    created_at := p.created_at.getD e.created_at
    updated_at := now }

/-- Spread merge of updateSite: {...existing, ...patch, updated_at: now}. -/
def mergeSitePatch (e : Site) (p : SitePatch) (now : String) : Site :=
  { id := p.id.getD e.id
    group_id := p.group_id.getD e.group_id
    name := p.name.getD e.name
    url := p.url.getD e.url
    icon := p.icon.getD e.icon
    description := p.description.getD e.description
    notes := p.notes.getD e.notes
    is_public := p.is_public.getD e.is_public
    order_num := p.order_num.getD e.order_num
    created_at := p.created_at.getD e.created_at
    updated_at := now }

/-- getGroups: unauthenticated callers see only groups with is_public 1. -/
def getGroups (st : MockState) (isAuthenticated : Bool) : List Group :=
  if isAuthenticated then st.groups
  else st.groups.filter (fun g => g.is_public == 1)

/-- getSites: unauthenticated callers see only public sites whose group_id
is among the ids of the public groups; an optional (truthy) groupId then
restricts to that group. -/
def getSites (st : MockState) (isAuthenticated : Bool) (groupId : Option Nat) :
    List Site :=
  let sites :=
    if isAuthenticated then st.sites
    else
      let publicGroupIds := (st.groups.filter (fun g => g.is_public == 1)).map
        (fun g => g.id)
      st.sites.filter (fun s => s.is_public == 1 && publicGroupIds.contains s.group_id)
  match groupId with
  | some gid => if gid = 0 then sites else sites.filter (fun s => s.group_id == gid)
  | none => sites

/-- An entry of getGroupsWithSites: a group together with its sites. -/
structure GroupWithSites where
  group : Group
  sites : List Site
deriving DecidableEq

/-- getGroupsWithSites: the same visibility filtering as getGroups and
getSites, then each surviving group is paired with the surviving sites
whose group_id equals its id. -/
def getGroupsWithSites (st : MockState) (isAuthenticated : Bool) :
    List GroupWithSites :=
  let groups := if isAuthenticated then st.groups
    else st.groups.filter (fun g => g.is_public == 1)
  let sites :=
    if isAuthenticated then st.sites
    else
      let publicGroupIds := groups.map (fun g => g.id)
      st.sites.filter (fun s => s.is_public == 1 && publicGroupIds.contains s.group_id)
  groups.map (fun g => ⟨g, sites.filter (fun s => s.group_id == g.id)⟩)

/-- createGroup: push a copy of the argument with a fresh id and fresh
timestamps; returns the new group and the new state. -/
def createGroup (g : Group) (st : MockState) (now : String) : Group × MockState :=
  let newGroup : Group :=
    { g with id := nextId (st.groups.map (fun x => x.id)),
             created_at := now, updated_at := now }
  (newGroup, { st with groups := st.groups ++ [newGroup] })

/-- updateGroup: locate the group by id, merge the patch over it, refresh
updated_at; returns none and leaves the state unchanged when the id is
absent. -/
def updateGroup (id : Nat) (p : GroupPatch) (st : MockState) (now : String) :
    Option Group × MockState :=
  match findIdxP (fun g => g.id == id) st.groups with
  | none => (none, st)
  | some i =>
    match getAt st.groups i with
    | none => (none, st)
    | some existing =>
      (some (mergeGroupPatch existing p now),
       { st with groups := setIdx st.groups i (mergeGroupPatch existing p now) })

/-- deleteGroup: remove the group by id; false when absent.  Sites of the
deleted group are not touched. -/
def deleteGroup (id : Nat) (st : MockState) : Bool × MockState :=
  match findIdxP (fun g => g.id == id) st.groups with
  | none => (false, st)
  | some i => (true, { st with groups := st.groups.eraseIdx i })

/-- createSite: push a copy of the argument with a fresh id and fresh
timestamps. -/
def createSite (s : Site) (st : MockState) (now : String) : Site × MockState :=
  let newSite : Site :=
    { s with id := nextId (st.sites.map (fun x => x.id)),
             created_at := now, updated_at := now }
  (newSite, { st with sites := st.sites ++ [newSite] })

/-- updateSite: locate the site by id, merge the patch over it, refresh
updated_at; none when the id is absent. -/
def updateSite (id : Nat) (p : SitePatch) (st : MockState) (now : String) :
    Option Site × MockState :=
  match findIdxP (fun s => s.id == id) st.sites with
  | none => (none, st)
  | some i =>
    match getAt st.sites i with
    | none => (none, st)
    | some existing =>
      (some (mergeSitePatch existing p now),
       { st with sites := setIdx st.sites i (mergeSitePatch existing p now) })

/-- deleteSite: remove the site by id; false when absent. -/
def deleteSite (id : Nat) (st : MockState) : Bool × MockState :=
  match findIdxP (fun s => s.id == id) st.sites with
  | none => (false, st)
  | some i => (true, { st with sites := st.sites.eraseIdx i })

/-- One iteration of the updateGroupOrder loop: assign order_num to the
group matching the given id, silently skipping an absent id.  The source
mutates only the order_num field of the matched object. -/
def orderGroupStep (gs : List Group) (o : Nat × Int) : List Group :=
  match findIdxP (fun g => g.id == o.1) gs with
  | none => gs
  | some i =>
    match getAt gs i with
    | none => gs
    | some g => setIdx gs i { g with order_num := o.2 }

/-- updateGroupOrder: apply each (id, order_num) pair in order, then
report success. -/
def updateGroupOrder (orders : List (Nat × Int)) (st : MockState) :
    Bool × MockState :=
  (true, { st with groups := orders.foldl orderGroupStep st.groups })

/-- One iteration of the updateSiteOrder loop. -/
def orderSiteStep (ss : List Site) (o : Nat × Int) : List Site :=
  match findIdxP (fun s => s.id == o.1) ss with
  | none => ss
  | some i =>
    match getAt ss i with
    | none => ss
    | some s => setIdx ss i { s with order_num := o.2 }

/-- updateSiteOrder: the site counterpart of updateGroupOrder. -/
def updateSiteOrder (orders : List (Nat × Int)) (st : MockState) :
    Bool × MockState :=
  (true, { st with sites := orders.foldl orderSiteStep st.sites })

/-- getConfig: mockConfigs[key] || null, so an empty-string value is
reported as null exactly like an absent key. -/
def getConfig (st : MockState) (key : String) : Option String :=
  match lookupP key st.configs with
  | none => none
  | some v => if v = "" then none else some v

/-- JavaScript object assignment obj[key] = value: replace the value in
place when the key exists, append otherwise. -/
def objSet (m : List (String × String)) (k v : String) :
    List (String × String) :=
  if (lookupP k m).isSome then
    m.map (fun p => if p.1 == k then (k, v) else p)
  else m ++ [(k, v)]

/-- setConfig: assign and report success. -/
def setConfig (key value : String) (st : MockState) : Bool × MockState :=
  (true, { st with configs := objSet st.configs key value })

/-- Accumulator of the group phase of importData: the evolving live group
list, the foreign-to-live id remapping table, and the two counters. -/
structure GAcc where
  groups : List Group
  gmap : List (Nat × Nat)
  created : Nat
  merged : Nat
deriving DecidableEq

/-- One iteration of the group loop of importData.  A live group of the
same name means merge: record the id mapping when both ids are truthy and
count merged; otherwise create a fresh group, record the mapping when the
incoming id is truthy, and count created. -/
def groupStep (now : String) (acc : GAcc) (g : Group) : GAcc :=
  match findIdxP (fun x => x.name == g.name) acc.groups with
  | some i =>
    ⟨acc.groups,
     match getAt acc.groups i with
     | some eg =>
       if g.id ≠ 0 ∧ eg.id ≠ 0 then (g.id, eg.id) :: acc.gmap else acc.gmap
     | none => acc.gmap,
     acc.created, acc.merged + 1⟩
  | none =>
    ⟨acc.groups ++
       [{ g with id := nextId (acc.groups.map (fun x => x.id)),
                 created_at := now, updated_at := now }],
     if g.id ≠ 0 then
       (g.id, nextId (acc.groups.map (fun x => x.id))) :: acc.gmap
     else acc.gmap,
     acc.created + 1, acc.merged⟩

/-- The whole group phase: fold groupStep over the snapshot groups in
order. -/
def groupPhase (now : String) (gs : List Group) (acc : GAcc) : GAcc :=
  gs.foldl (groupStep now) acc

/-- Accumulator of the site phase of importData. -/
structure SAcc where
  sites : List Site
  created : Nat
  updated : Nat
  skipped : Nat
deriving DecidableEq

/-- One iteration of the site loop of importData.  An unmapped or falsy
group id means skip; a live site with the same resolved group id and url
means update of the display fields only; otherwise a fresh site is created
under the resolved group id. -/
def siteStep (gmap : List (Nat × Nat)) (now : String) (acc : SAcc) (s : Site) :
    SAcc :=
  match lookupP s.group_id gmap with
  | none => { acc with skipped := acc.skipped + 1 }
  | some gid =>
    if gid = 0 then { acc with skipped := acc.skipped + 1 }
    else
      match findIdxP (fun t => t.group_id == gid && t.url == s.url) acc.sites with
      | some i =>
        match getAt acc.sites i with
        | some old =>
          { acc with
            sites := setIdx acc.sites i
              { old with name := s.name, icon := s.icon,
                         description := s.description, notes := s.notes,
                         updated_at := now },
            updated := acc.updated + 1 }
        | none => acc
      | none =>
        { acc with
          sites := acc.sites ++
            [{ s with id := nextId (acc.sites.map (fun x => x.id)),
                      group_id := gid, created_at := now, updated_at := now }],
          created := acc.created + 1 }

/-- The whole site phase: fold siteStep over the snapshot sites in order,
with the remapping table fixed. -/
def sitePhase (gmap : List (Nat × Nat)) (now : String) (ss : List Site)
    (acc : SAcc) : SAcc :=
  ss.foldl (siteStep gmap now) acc

/-- importData: group phase, then site phase against the completed
remapping table, then last-writer-wins config merge; returns success with
the aggregated statistics and the merged state. -/
def importData (data : ExportData) (st : MockState) (now : String) :
    ImportResult × MockState :=
  let ga := groupPhase now data.groups ⟨st.groups, [], 0, 0⟩
  let sa := sitePhase ga.gmap now data.sites ⟨st.sites, 0, 0, 0⟩
  let cfgs := data.configs.foldl (fun m kv => objSet m kv.1 kv.2) st.configs
  (⟨true,
    ⟨⟨data.groups.length, ga.created, ga.merged⟩,
     ⟨data.sites.length, sa.created, sa.updated, sa.skipped⟩⟩⟩,
   ⟨ga.groups, sa.sites, cfgs⟩)

/-- exportData: a detached copy of the live collections plus metadata. -/
def exportData (st : MockState) (now : String) : ExportData :=
  ⟨st.groups, st.sites, st.configs, "1.0", now⟩

/-- Identity invariant on groups: live names are pairwise distinct. -/
def GroupNamesDistinct (gs : List Group) : Prop :=
  gs.Pairwise (fun a b => a.name ≠ b.name)

instance (gs : List Group) : Decidable (GroupNamesDistinct gs) := by
  unfold GroupNamesDistinct
  infer_instance

/-- Identity invariant on sites: the business key (group_id, url) is
pairwise distinct. -/
def SiteKeysDistinct (ss : List Site) : Prop :=
  ss.Pairwise (fun a b => ¬(a.group_id = b.group_id ∧ a.url = b.url))

instance (ss : List Site) : Decidable (SiteKeysDistinct ss) := by
  unfold SiteKeysDistinct
  infer_instance

/-- Reference integrity of a site list against a group list: every
group_id is the id of some listed group. -/
def SitesRef (gs : List Group) (ss : List Site) : Prop :=
  ∀ s ∈ ss, ∃ g ∈ gs, g.id = s.group_id

/-- Reference integrity of a whole store state. -/
def RefIntegrity (st : MockState) : Prop :=
  SitesRef st.groups st.sites

/-! Concrete sample data for witnesses and counterexamples. -/

/-- A sample live group. -/
def gDev : Group := ⟨1, "Dev", 1, 1, "t0", "t0"⟩

/-- A sample live site under group 1. -/
def sX : Site := ⟨1, 1, "X", "http://x", "ic", "de", "no", 1, 1, "t0", "t0"⟩

/-- An incoming snapshot site with the same (group, url) business key as
sX but different display fields and different immutable fields. -/
def sXnew : Site := ⟨7, 1, "X2", "http://x", "ic2", "de2", "no2", 0, 3, "t9", "t9"⟩

/-- A one-group live store. -/
def stOne : MockState := ⟨[gDev], [sX], [("k", "v")]⟩

/-- The empty patch for a group. -/
def emptyGPatch : GroupPatch := {}

/-- The empty patch for a site. -/
def emptySPatch : SitePatch := {}

/-- A patch that supplies an id. -/
def idGPatch : GroupPatch := { id := some 99 }

/-- A site patch that supplies an id. -/
def idSPatch : SitePatch := { id := some 99 }

/-- All group fields except order_num, as one tuple. -/
def groupFrame (g : Group) : Nat × String × Nat × String × String :=
  (g.id, g.name, g.is_public, g.created_at, g.updated_at)

/-- All site fields except order_num, as one tuple. -/
def siteFrame (s : Site) :
    Nat × Nat × String × String × String × String × String × Nat × String × String :=
  (s.id, s.group_id, s.name, s.url, s.icon, s.description, s.notes,
   s.is_public, s.created_at, s.updated_at)

/-- A second group carrying the same name as gDev. -/
def gDevDup : Group := ⟨0, "Dev", 0, 2, "u0", "u0"⟩

/-- A small snapshot used by several witnesses: one group named Dev with
foreign id 9 and one site under it. -/
def dSample : ExportData :=
  ⟨[⟨9, "Dev", 1, 1, "s0", "s0"⟩],
   [⟨4, 9, "X2", "http://x", "ic2", "de2", "no2", 1, 2, "s0", "s0"⟩],
   [("k", "w")], "1.0", "e"⟩

instance (gs : List Group) (ss : List Site) : Decidable (SitesRef gs ss) := by
  unfold SitesRef
  infer_instance

instance (st : MockState) : Decidable (RefIntegrity st) := by
  unfold RefIntegrity
  infer_instance

/-- The empty snapshot. -/
def dEmpty : ExportData := ⟨[], [], [], "1.0", "e"⟩

/-- Soundness of the remapping table against a group list: every value of
the table is the id of some listed group. -/
def MapSound (m : List (Nat × Nat)) (gs : List Group) : Prop :=
  ∀ kv ∈ m, ∃ g ∈ gs, g.id = kv.2

/-- A live site with the given resolved group id and url exists. -/
def pairPresent (ss : List Site) (gid : Nat) (url : String) : Prop :=
  ∃ t ∈ ss, t.group_id = gid ∧ t.url = url

/-! Basic lemmas about the list helpers. -/

theorem findIdxP_eq_none {α : Type} {p : α → Bool} {l : List α} :
    findIdxP p l = none ↔ ∀ a ∈ l, p a = false := by
  induction l with
  | nil => simp [findIdxP]
  | cons a as ih =>
    by_cases h : p a
    · simp [findIdxP, h]
    · simp only [Bool.not_eq_true] at h
      simp [findIdxP, h, ih]

theorem findIdxP_some_getAt {α : Type} {p : α → Bool} {l : List α} {i : Nat}
    (h : findIdxP p l = some i) : ∃ a, getAt l i = some a ∧ p a = true := by
  induction l generalizing i with
  | nil => simp [findIdxP] at h
  | cons a as ih =>
    by_cases hp : p a
    · simp [findIdxP, hp] at h
      subst h
      exact ⟨a, rfl, hp⟩
    · simp only [Bool.not_eq_true] at hp
      simp [findIdxP, hp, Option.map_eq_some'] at h
      obtain ⟨j, hj, hji⟩ := h
      obtain ⟨b, hb, hpb⟩ := ih hj
      subst hji
      exact ⟨b, hb, hpb⟩

theorem findIdxP_some_lt {α : Type} {p : α → Bool} {l : List α} {i : Nat}
    (h : findIdxP p l = some i) : i < l.length := by
  induction l generalizing i with
  | nil => simp [findIdxP] at h
  | cons a as ih =>
    by_cases hp : p a
    · simp [findIdxP, hp] at h
      subst h
      simp
    · simp only [Bool.not_eq_true] at hp
      simp [findIdxP, hp, Option.map_eq_some'] at h
      obtain ⟨j, hj, hji⟩ := h
      subst hji
      simpa using ih hj

theorem findIdxP_append_some {α : Type} {p : α → Bool} {l t : List α} {i : Nat}
    (h : findIdxP p l = some i) : findIdxP p (l ++ t) = some i := by
  induction l generalizing i with
  | nil => simp [findIdxP] at h
  | cons a as ih =>
    by_cases hp : p a
    · simp [findIdxP, hp] at h ⊢
      exact h
    · simp only [Bool.not_eq_true] at hp
      simp [findIdxP, hp, Option.map_eq_some'] at h ⊢
      obtain ⟨j, hj, hji⟩ := h
      exact ⟨j, ih hj, hji⟩

theorem findIdxP_append_none_cons {α : Type} {p : α → Bool} {l t : List α}
    {x : α} (h : findIdxP p l = none) (hx : p x = true) :
    findIdxP p (l ++ x :: t) = some l.length := by
  induction l with
  | nil => simp [findIdxP, hx]
  | cons a as ih =>
    by_cases hp : p a
    · simp [findIdxP, hp] at h
    · simp only [Bool.not_eq_true] at hp
      simp [findIdxP, hp] at h ⊢
      exact ih h

theorem findIdxP_some_of_mem {α : Type} {p : α → Bool} {l : List α} {a : α}
    (ha : a ∈ l) (hp : p a = true) : ∃ i, findIdxP p l = some i := by
  cases h : findIdxP p l with
  | none => exact absurd hp (by simp [findIdxP_eq_none.mp h a ha])
  | some i => exact ⟨i, rfl⟩

theorem getAt_append_left {α : Type} {l t : List α} {i : Nat}
    (h : i < l.length) : getAt (l ++ t) i = getAt l i := by
  induction l generalizing i with
  | nil => simp at h
  | cons a as ih =>
    cases i with
    | zero => rfl
    | succ j => exact ih (by simpa using h)

theorem getAt_append_length {α : Type} {l t : List α} {x : α} :
    getAt (l ++ x :: t) l.length = some x := by
  induction l with
  | nil => rfl
  | cons a as ih => simpa [getAt] using ih

theorem getAt_some_mem {α : Type} {l : List α} {i : Nat} {a : α}
    (h : getAt l i = some a) : a ∈ l := by
  induction l generalizing i with
  | nil => simp [getAt] at h
  | cons b bs ih =>
    cases i with
    | zero =>
      simp [getAt] at h
      simp [h]
    | succ j => exact List.mem_cons_of_mem b (ih h)

theorem getAt_setIdx_ne {α : Type} {l : List α} {i j : Nat} {b : α}
    (h : j ≠ i) : getAt (setIdx l i b) j = getAt l j := by
  induction l generalizing i j with
  | nil => rfl
  | cons a as ih =>
    cases i with
    | zero =>
      cases j with
      | zero => exact absurd rfl h
      | succ k => rfl
    | succ i' =>
      cases j with
      | zero => rfl
      | succ k => exact ih (by omega)

theorem getAt_setIdx_self {α : Type} {l : List α} {i : Nat} {a b : α}
    (h : getAt l i = some a) : getAt (setIdx l i b) i = some b := by
  induction l generalizing i with
  | nil => simp [getAt] at h
  | cons c cs ih =>
    cases i with
    | zero => rfl
    | succ j => exact ih h

theorem mem_setIdx_cases {α : Type} {l : List α} {i : Nat} {a b : α}
    (h : a ∈ setIdx l i b) : a ∈ l ∨ a = b := by
  induction l generalizing i with
  | nil => simp [setIdx] at h
  | cons c cs ih =>
    cases i with
    | zero =>
      rcases List.mem_cons.mp h with h1 | h1
      · exact Or.inr h1
      · exact Or.inl (List.mem_cons_of_mem c h1)
    | succ j =>
      rcases List.mem_cons.mp h with h1 | h1
      · exact Or.inl (by simp [h1])
      · rcases ih h1 with h2 | h2
        · exact Or.inl (List.mem_cons_of_mem c h2)
        · exact Or.inr h2

theorem exists_mem_setIdx {α : Type} {Q : α → Prop} {l : List α} {i : Nat}
    {old new : α} (hget : getAt l i = some old) (himp : Q old → Q new)
    (h : ∃ t ∈ l, Q t) : ∃ t ∈ setIdx l i new, Q t := by
  induction l generalizing i with
  | nil => simp [getAt] at hget
  | cons c cs ih =>
    obtain ⟨w, hw, hQ⟩ := h
    cases i with
    | zero =>
      simp [getAt] at hget
      rcases List.mem_cons.mp hw with h1 | h1
      · subst h1
        subst hget
        exact ⟨new, List.mem_cons_self _ _, himp hQ⟩
      · exact ⟨w, List.mem_cons_of_mem _ h1, hQ⟩
    | succ j =>
      rcases List.mem_cons.mp hw with h1 | h1
      · subst h1
        exact ⟨w, List.mem_cons_self _ _, hQ⟩
      · obtain ⟨t, ht, hQt⟩ := ih hget ⟨w, h1, hQ⟩
        exact ⟨t, List.mem_cons_of_mem _ ht, hQt⟩

theorem pairwise_setIdx {α : Type} {R : α → α → Prop} {l : List α} {i : Nat}
    {a b : α} (hp : List.Pairwise R l) (hget : getAt l i = some a)
    (h1 : ∀ x, R x a → R x b) (h2 : ∀ x, R a x → R b x) :
    List.Pairwise R (setIdx l i b) := by
  induction l generalizing i with
  | nil => simp [setIdx]
  | cons c cs ih =>
    rcases List.pairwise_cons.mp hp with ⟨hc, hcs⟩
    cases i with
    | zero =>
      simp [getAt] at hget
      subst hget
      exact List.pairwise_cons.mpr ⟨fun x hx => h2 x (hc x hx), hcs⟩
    | succ j =>
      refine List.pairwise_cons.mpr ⟨?_, ih hcs hget⟩
      intro x hx
      rcases mem_setIdx_cases hx with hmem | hb
      · exact hc x hmem
      · subst hb
        exact h1 c (hc a (getAt_some_mem hget))

theorem map_setIdx_eq {α β : Type} {l : List α} {i : Nat} {a b : α}
    (f : α → β) (hget : getAt l i = some a) (hf : f b = f a) :
    (setIdx l i b).map f = l.map f := by
  induction l generalizing i with
  | nil => simp [setIdx]
  | cons c cs ih =>
    cases i with
    | zero =>
      simp [getAt] at hget
      subst hget
      simp [setIdx, hf]
    | succ j => simp [setIdx, ih hget]

theorem lookupP_some_mem {α β : Type} [BEq α] [LawfulBEq α] {k : α}
    {m : List (α × β)} {v : β} (h : lookupP k m = some v) : (k, v) ∈ m := by
  induction m with
  | nil => simp [lookupP] at h
  | cons kv rest ih =>
    obtain ⟨a, b⟩ := kv
    by_cases hk : a == k
    · simp [lookupP, hk] at h
      subst h
      have : a = k := by simpa using hk
      simp [this]
    · simp only [Bool.not_eq_true] at hk
      simp [lookupP, hk] at h
      exact List.mem_cons_of_mem _ (ih h)

/-! Counting lemmas for the import statistics. -/

theorem groupStep_count (now : String) (acc : GAcc) (g : Group) :
    (groupStep now acc g).created + (groupStep now acc g).merged =
      acc.created + acc.merged + 1 := by
  unfold groupStep
  cases hf : findIdxP (fun x => x.name == g.name) acc.groups with
  | some i => simp +arith
  | none => simp +arith

theorem groupPhase_count (now : String) (gs : List Group) (acc : GAcc) :
    (groupPhase now gs acc).created + (groupPhase now gs acc).merged =
      acc.created + acc.merged + gs.length := by
  induction gs generalizing acc with
  | nil => simp [groupPhase]
  | cons g gs ih =>
    have h : groupPhase now (g :: gs) acc = groupPhase now gs (groupStep now acc g) := rfl
    rw [h, ih (groupStep now acc g), groupStep_count]
    simp +arith

theorem siteStep_count (gmap : List (Nat × Nat)) (now : String) (acc : SAcc)
    (s : Site) :
    (siteStep gmap now acc s).created + (siteStep gmap now acc s).updated +
        (siteStep gmap now acc s).skipped =
      acc.created + acc.updated + acc.skipped + 1 := by
  unfold siteStep
  cases hl : lookupP s.group_id gmap with
  | none => simp +arith
  | some gid =>
    by_cases hg : gid = 0
    · simp +arith [hg]
    · simp only [hg, if_false]
      cases hf : findIdxP (fun t => t.group_id == gid && t.url == s.url) acc.sites with
      | none => simp +arith
      | some i =>
        obtain ⟨old, hold, _⟩ := findIdxP_some_getAt hf
        simp +arith [hold]

theorem sitePhase_count (gmap : List (Nat × Nat)) (now : String)
    (ss : List Site) (acc : SAcc) :
    (sitePhase gmap now ss acc).created + (sitePhase gmap now ss acc).updated +
        (sitePhase gmap now ss acc).skipped =
      acc.created + acc.updated + acc.skipped + ss.length := by
  induction ss generalizing acc with
  | nil => simp [sitePhase]
  | cons s ss ih =>
    have h : sitePhase gmap now (s :: ss) acc =
        sitePhase gmap now ss (siteStep gmap now acc s) := rfl
    rw [h, ih (siteStep gmap now acc s), siteStep_count]
    simp +arith

/-- C2: whenever importData reports success (which it always does in this
pure embedding), the statistics conserve totals: groups.created +
groups.merged = groups.total, sites.created + sites.updated +
sites.skipped = sites.total, and the totals are the snapshot list
lengths. -/
theorem importData_stats_conservation (d : ExportData) (st : MockState)
    (now : String) :
    ((importData d st now).1.success = true) ∧
    ((importData d st now).1.stats.groups.created +
        (importData d st now).1.stats.groups.merged =
      (importData d st now).1.stats.groups.total) ∧
    ((importData d st now).1.stats.sites.created +
        (importData d st now).1.stats.sites.updated +
        (importData d st now).1.stats.sites.skipped =
      (importData d st now).1.stats.sites.total) ∧
    ((importData d st now).1.stats.groups.total = d.groups.length) ∧
    ((importData d st now).1.stats.sites.total = d.sites.length) := by
  refine ⟨rfl, ?_, ?_, rfl, rfl⟩
  · have h := groupPhase_count now d.groups ⟨st.groups, [], 0, 0⟩
    simpa [importData] using h
  · have h := sitePhase_count
      (groupPhase now d.groups ⟨st.groups, [], 0, 0⟩).gmap now d.sites
      ⟨st.sites, 0, 0, 0⟩
    simpa [importData] using h

/-- C10: getConfig conflates an absent key with an empty-string value: it
returns the stored value exactly when that value is a non-empty string,
and returns none both when the key is absent and when the stored value is
the empty string. -/
theorem getConfig_conflates_empty_and_absent (st : MockState) (key : String) :
    (∀ v, getConfig st key = some v ↔
      lookupP key st.configs = some v ∧ v ≠ "") ∧
    (getConfig st key = none ↔
      (lookupP key st.configs = none ∨ lookupP key st.configs = some "")) := by
  unfold getConfig
  cases h : lookupP key st.configs with
  | none => simp
  | some v =>
    by_cases hv : v = ""
    · subst hv
      simp
    · simp only [hv, if_false]
      constructor
      · intro w
        constructor
        · intro hw
          exact ⟨by simpa using hw, by simp at hw; simpa [← hw] using hv⟩
        · intro ⟨h1, h2⟩
          simpa using h1
      · simp [hv]

/-- C4: when an incoming site matches a live site (same resolved group id,
same url), only name, icon, description, notes and updated_at of that live
site change: the result replaces exactly index i by a record keeping id,
group_id, url, is_public, order_num and created_at of the old site, and
every other position of the live site list is untouched. -/
theorem siteStep_update_frame (gmap : List (Nat × Nat)) (now : String)
    (acc : SAcc) (s : Site) (gid i : Nat) (old : Site)
    (hl : lookupP s.group_id gmap = some gid) (hg : gid ≠ 0)
    (hf : findIdxP (fun t => t.group_id == gid && t.url == s.url) acc.sites = some i)
    (hold : getAt acc.sites i = some old) :
    (siteStep gmap now acc s =
      { acc with
        sites := setIdx acc.sites i
          ⟨old.id, old.group_id, s.name, old.url, s.icon, s.description,
           s.notes, old.is_public, old.order_num, old.created_at, now⟩,
        updated := acc.updated + 1 }) ∧
    (∀ j, j ≠ i → getAt (siteStep gmap now acc s).sites j = getAt acc.sites j) := by
  have h1 : siteStep gmap now acc s =
      { acc with
        sites := setIdx acc.sites i
          ⟨old.id, old.group_id, s.name, old.url, s.icon, s.description,
           s.notes, old.is_public, old.order_num, old.created_at, now⟩,
        updated := acc.updated + 1 } := by
    unfold siteStep
    rw [hl]
    simp only [hg, if_false, hf, hold]
  refine ⟨h1, ?_⟩
  intro j hj
  rw [h1]
  exact getAt_setIdx_ne hj

/-- Witness for C4 at a concrete store and snapshot site. -/
theorem siteStep_update_frame_witness :
    siteStep [(1, 1)] "t1" ⟨[sX], 0, 0, 0⟩ sXnew =
      ⟨[⟨1, 1, "X2", "http://x", "ic2", "de2", "no2", 1, 1, "t0", "t1"⟩], 0, 1, 0⟩ := by
  have h := (siteStep_update_frame [(1, 1)] "t1" ⟨[sX], 0, 0, 0⟩ sXnew 1 0 sX
    (by decide) (by decide) (by decide) (by decide)).1
  rw [h]
  decide

/-- C6 fails as stated: a partial update that itself carries an id field
overwrites the stored id, because the source merges the patch with spread
syntax.  Here updateGroup changes the id of the only live group from 1 to
99, and updateSite does the same for the only live site. -/
theorem update_can_change_id_cex :
    ¬ ((updateGroup 1 idGPatch stOne "t1").2.groups.map (fun g => g.id) =
        stOne.groups.map (fun g => g.id)) ∧
    ¬ ((updateSite 1 idSPatch stOne "t1").2.sites.map (fun s => s.id) =
        stOne.sites.map (fun s => s.id)) := by
  decide

/-- C6 amended: the surrogate id is unchanged by every updateGroup or
updateSite call whose patch does not itself supply an id field. -/
theorem update_preserves_id_when_patch_omits_id (st : MockState) (id : Nat)
    (p : GroupPatch) (q : SitePatch) (now : String)
    (hp : p.id = none) (hq : q.id = none) :
    ((updateGroup id p st now).2.groups.map (fun g => g.id) =
      st.groups.map (fun g => g.id)) ∧
    ((updateSite id q st now).2.sites.map (fun s => s.id) =
      st.sites.map (fun s => s.id)) := by
  constructor
  · unfold updateGroup
    cases hf : findIdxP (fun g => g.id == id) st.groups with
    | none => rfl
    | some i =>
      cases hg : getAt st.groups i with
      | none => simp only [hg]
      | some existing =>
        simp only [hg]
        refine map_setIdx_eq (fun g => g.id) hg ?_
        simp [mergeGroupPatch, hp]
  · unfold updateSite
    cases hf : findIdxP (fun s => s.id == id) st.sites with
    | none => rfl
    | some i =>
      cases hg : getAt st.sites i with
      | none => simp only [hg]
      | some existing =>
        simp only [hg]
        refine map_setIdx_eq (fun s => s.id) hg ?_
        simp [mergeSitePatch, hq]

/-- Witness for the amended C6 at a concrete store. -/
theorem update_preserves_id_witness :
    ((updateGroup 1 emptyGPatch stOne "t1").2.groups.map (fun g => g.id) =
      stOne.groups.map (fun g => g.id)) ∧
    ((updateSite 1 emptySPatch stOne "t1").2.sites.map (fun s => s.id) =
      stOne.sites.map (fun s => s.id)) :=
  update_preserves_id_when_patch_omits_id stOne 1 emptyGPatch emptySPatch "t1" rfl rfl

/-- C7 fails as stated: updateGroupOrder changes order_num of the matched
group (from 1 to 42) yet leaves its updated_at at the old value t0. -/
theorem updateGroupOrder_no_refresh_cex :
    ((updateGroupOrder [(1, 42)] stOne).2.groups.map
        (fun g => (g.order_num, g.updated_at)) = [(42, "t0")]) ∧
    gDev.order_num ≠ 42 ∧ gDev.updated_at = "t0" := by
  decide

theorem orderGroupStep_frame (gs : List Group) (o : Nat × Int) :
    (orderGroupStep gs o).map groupFrame = gs.map groupFrame := by
  unfold orderGroupStep
  cases hf : findIdxP (fun g => g.id == o.1) gs with
  | none => rfl
  | some i =>
    cases hg : getAt gs i with
    | none => simp only [hg]
    | some g =>
      simp only [hg]
      refine map_setIdx_eq groupFrame hg ?_
      simp [groupFrame]

theorem orderSiteStep_frame (ss : List Site) (o : Nat × Int) :
    (orderSiteStep ss o).map siteFrame = ss.map siteFrame := by
  unfold orderSiteStep
  cases hf : findIdxP (fun s => s.id == o.1) ss with
  | none => rfl
  | some i =>
    cases hg : getAt ss i with
    | none => simp only [hg]
    | some s =>
      simp only [hg]
      refine map_setIdx_eq siteFrame hg ?_
      simp [siteFrame]

/-- C7 amended: updateGroup and updateSite refresh updated_at of the
entity they modify, while the batch reorder operations updateGroupOrder
and updateSiteOrder change only order_num and leave every other field,
updated_at included, unchanged on every live entity. -/
theorem mutation_updated_at_behavior (st : MockState)
    (orders : List (Nat × Int)) (id : Nat) (p : GroupPatch) (q : SitePatch)
    (now : String) :
    ((updateGroupOrder orders st).2.groups.map groupFrame =
      st.groups.map groupFrame) ∧
    ((updateSiteOrder orders st).2.sites.map siteFrame =
      st.sites.map siteFrame) ∧
    (∀ g', (updateGroup id p st now).1 = some g' → g'.updated_at = now) ∧
    (∀ s', (updateSite id q st now).1 = some s' → s'.updated_at = now) := by
  refine ⟨?_, ?_, ?_, ?_⟩
  · show (orders.foldl orderGroupStep st.groups).map groupFrame =
      st.groups.map groupFrame
    induction orders generalizing st with
    | nil => rfl
    | cons o os ih =>
      have h : (o :: os).foldl orderGroupStep st.groups =
          os.foldl orderGroupStep (orderGroupStep st.groups o) := rfl
      rw [h]
      calc (os.foldl orderGroupStep (orderGroupStep st.groups o)).map groupFrame
          = (orderGroupStep st.groups o).map groupFrame :=
            ih ⟨orderGroupStep st.groups o, st.sites, st.configs⟩
        _ = st.groups.map groupFrame := orderGroupStep_frame st.groups o
  · show (orders.foldl orderSiteStep st.sites).map siteFrame =
      st.sites.map siteFrame
    induction orders generalizing st with
    | nil => rfl
    | cons o os ih =>
      have h : (o :: os).foldl orderSiteStep st.sites =
          os.foldl orderSiteStep (orderSiteStep st.sites o) := rfl
      rw [h]
      calc (os.foldl orderSiteStep (orderSiteStep st.sites o)).map siteFrame
          = (orderSiteStep st.sites o).map siteFrame :=
            ih ⟨st.groups, orderSiteStep st.sites o, st.configs⟩
        _ = st.sites.map siteFrame := orderSiteStep_frame st.sites o
  · intro g' hg'
    unfold updateGroup at hg'
    split at hg'
    · simp at hg'
    · split at hg'
      · simp at hg'
      · simp only [Option.some_inj] at hg'
        rw [← hg']
        rfl
  · intro s' hs'
    unfold updateSite at hs'
    split at hs'
    · simp at hs'
    · split at hs'
      · simp at hs'
      · simp only [Option.some_inj] at hs'
        rw [← hs']
        rfl

/-- Witness for the amended C7 at a concrete store: the reorder frame
part applied directly, and the refresh part discharged at the concrete
result of updateGroup. -/
theorem mutation_updated_at_behavior_witness :
    ((updateGroupOrder [(1, 42)] stOne).2.groups.map groupFrame =
      stOne.groups.map groupFrame) ∧
    (⟨1, "Dev", 1, 1, "t0", "t1"⟩ : Group).updated_at = "t1" :=
  ⟨(mutation_updated_at_behavior stOne [(1, 42)] 1 emptyGPatch emptySPatch "t1").1,
   (mutation_updated_at_behavior stOne [(1, 42)] 1 emptyGPatch emptySPatch "t1").2.2.1
     ⟨1, "Dev", 1, 1, "t0", "t1"⟩ (by decide)⟩

/-- C9: authenticated queries are unfiltered; unauthenticated getGroups
returns exactly the groups with is_public 1, unauthenticated getSites
returns exactly the public sites whose group_id is the id of some public
group, and every entry of unauthenticated getGroupsWithSites carries a
public group and exactly those sites that are public, owned by that entry
and owned by a public group. -/
theorem visibility_filter (st : MockState) :
    (getGroups st true = st.groups) ∧
    (getSites st true none = st.sites) ∧
    (∀ g, g ∈ getGroups st false ↔ g ∈ st.groups ∧ g.is_public = 1) ∧
    (∀ s, s ∈ getSites st false none ↔
      s ∈ st.sites ∧ s.is_public = 1 ∧
      ∃ g, g ∈ st.groups ∧ g.is_public = 1 ∧ g.id = s.group_id) ∧
    (∀ e, e ∈ getGroupsWithSites st false →
      e.group.is_public = 1 ∧
      ∀ s, s ∈ e.sites ↔
        s ∈ st.sites ∧ s.is_public = 1 ∧ s.group_id = e.group.id ∧
        ∃ g, g ∈ st.groups ∧ g.is_public = 1 ∧ g.id = s.group_id) := by
  refine ⟨rfl, rfl, ?_, ?_, ?_⟩
  · intro g
    simp [getGroups, List.mem_filter]
  · intro s
    simp [getSites, List.mem_filter, List.mem_map]
    tauto
  · intro e he
    simp only [getGroupsWithSites, List.mem_map] at he
    obtain ⟨g, hg, rfl⟩ := he
    have hgf := List.mem_filter.mp hg
    constructor
    · simpa using hgf.2
    · intro s
      simp [List.mem_filter, List.mem_map]
      tauto

/-- Witness for C9 at a concrete store: the authenticated branch is the
identity and the public group gDev passes the unauthenticated filter. -/
theorem visibility_filter_witness :
    (getGroups stOne true = stOne.groups) ∧ gDev ∈ getGroups stOne false :=
  ⟨(visibility_filter stOne).1,
   ((visibility_filter stOne).2.2.1 gDev).mpr ⟨by decide, by decide⟩⟩

/-- C5 fails as stated: the single-entity CRUD operations perform no
business-key check.  Here the store satisfies both identity invariants,
yet createGroup of a second group named Dev yields two live groups with
the same name. -/
theorem createGroup_breaks_identity_invariant_cex :
    GroupNamesDistinct stOne.groups ∧ SiteKeysDistinct stOne.sites ∧
    ¬ GroupNamesDistinct ((createGroup gDevDup stOne "t1").2).groups := by
  decide

theorem groupStep_names_distinct (now : String) (acc : GAcc) (g : Group)
    (h : GroupNamesDistinct acc.groups) :
    GroupNamesDistinct (groupStep now acc g).groups := by
  unfold groupStep
  cases hf : findIdxP (fun x => x.name == g.name) acc.groups with
  | some i => simpa using h
  | none =>
    simp only []
    unfold GroupNamesDistinct at h ⊢
    refine List.pairwise_append.mpr ⟨h, List.pairwise_singleton _ _, ?_⟩
    intro a ha b hb
    simp only [List.mem_singleton] at hb
    subst hb
    have hbeq := findIdxP_eq_none.mp hf a ha
    simp only []
    intro heq
    rw [heq] at hbeq
    simp at hbeq

theorem groupPhase_names_distinct (now : String) (gs : List Group) (acc : GAcc)
    (h : GroupNamesDistinct acc.groups) :
    GroupNamesDistinct (groupPhase now gs acc).groups := by
  induction gs generalizing acc with
  | nil => exact h
  | cons g gs ih => exact ih (groupStep now acc g) (groupStep_names_distinct now acc g h)

theorem siteStep_keys_distinct (gmap : List (Nat × Nat)) (now : String)
    (acc : SAcc) (s : Site) (h : SiteKeysDistinct acc.sites) :
    SiteKeysDistinct (siteStep gmap now acc s).sites := by
  unfold siteStep
  cases hl : lookupP s.group_id gmap with
  | none => simpa using h
  | some gid =>
    by_cases hg : gid = 0
    · simpa [hg] using h
    · simp only [hg, if_false]
      cases hf : findIdxP (fun t => t.group_id == gid && t.url == s.url) acc.sites with
      | some i =>
        cases hget : getAt acc.sites i with
        | none => simpa [hget] using h
        | some old =>
          simp only [hget]
          unfold SiteKeysDistinct at h ⊢
          refine pairwise_setIdx h hget ?_ ?_
          · intro x hx hc
            exact hx ⟨hc.1, hc.2⟩
          · intro x hx hc
            exact hx ⟨hc.1, hc.2⟩
      | none =>
        simp only []
        unfold SiteKeysDistinct at h ⊢
        refine List.pairwise_append.mpr ⟨h, List.pairwise_singleton _ _, ?_⟩
        intro a ha b hb
        simp only [List.mem_singleton] at hb
        subst hb
        have hbeq := findIdxP_eq_none.mp hf a ha
        simp only [Bool.and_eq_false_iff] at hbeq
        intro heq
        rcases hbeq with hbeq | hbeq
        · rw [heq.1] at hbeq
          simp at hbeq
        · rw [heq.2] at hbeq
          simp at hbeq

theorem sitePhase_keys_distinct (gmap : List (Nat × Nat)) (now : String)
    (ss : List Site) (acc : SAcc) (h : SiteKeysDistinct acc.sites) :
    SiteKeysDistinct (sitePhase gmap now ss acc).sites := by
  induction ss generalizing acc with
  | nil => exact h
  | cons s ss ih =>
    exact ih (siteStep gmap now acc s) (siteStep_keys_distinct gmap now acc s h)

/-- C5 amended: importData preserves the identity invariant (pairwise
distinct live group names; pairwise distinct (group_id, url) keys among
live sites) whenever it holds beforehand; the single-entity operations
createGroup, updateGroup, createSite and updateSite do not enforce it. -/
theorem importData_preserves_identity_invariant (d : ExportData)
    (st : MockState) (now : String) (hg : GroupNamesDistinct st.groups)
    (hs : SiteKeysDistinct st.sites) :
    GroupNamesDistinct (importData d st now).2.groups ∧
    SiteKeysDistinct (importData d st now).2.sites := by
  constructor
  · exact groupPhase_names_distinct now d.groups ⟨st.groups, [], 0, 0⟩ hg
  · exact sitePhase_keys_distinct
      (groupPhase now d.groups ⟨st.groups, [], 0, 0⟩).gmap now d.sites
      ⟨st.sites, 0, 0, 0⟩ hs

/-- Witness for the amended C5 at a concrete store and snapshot. -/
theorem importData_preserves_identity_invariant_witness :
    GroupNamesDistinct (importData dSample stOne "t1").2.groups ∧
    SiteKeysDistinct (importData dSample stOne "t1").2.sites :=
  importData_preserves_identity_invariant dSample stOne "t1"
    (by decide) (by decide)

/-- C8 fails as stated: a merge only adds groups and never repairs
pre-existing danglers.  Deleting group 1 leaves its site dangling (no
cascade), and a subsequent successful merge of the empty snapshot leaves
that live site with a group_id that refers to no live group. -/
theorem merge_reference_integrity_cex :
    (importData dEmpty (deleteGroup 1 stOne).2 "t1").1.success = true ∧
    ¬ RefIntegrity (importData dEmpty (deleteGroup 1 stOne).2 "t1").2 := by
  decide

theorem groupStep_groups_extend (now : String) (acc : GAcc) (g : Group) :
    ∃ u, (groupStep now acc g).groups = acc.groups ++ u := by
  unfold groupStep
  cases hf : findIdxP (fun x => x.name == g.name) acc.groups with
  | some i => exact ⟨[], by simp⟩
  | none => exact ⟨_, rfl⟩

theorem groupPhase_groups_extend (now : String) (gs : List Group) (acc : GAcc) :
    ∃ t, (groupPhase now gs acc).groups = acc.groups ++ t := by
  induction gs generalizing acc with
  | nil => exact ⟨[], by simp [groupPhase]⟩
  | cons g gs ih =>
    obtain ⟨u, hu⟩ := groupStep_groups_extend now acc g
    obtain ⟨t, ht⟩ := ih (groupStep now acc g)
    exact ⟨u ++ t, by
      have h : groupPhase now (g :: gs) acc = groupPhase now gs (groupStep now acc g) := rfl
      rw [h, ht, hu, List.append_assoc]⟩

theorem groupStep_map_sound (now : String) (acc : GAcc) (g : Group)
    (h : MapSound acc.gmap acc.groups) :
    MapSound (groupStep now acc g).gmap (groupStep now acc g).groups := by
  unfold groupStep
  cases hf : findIdxP (fun x => x.name == g.name) acc.groups with
  | some i =>
    cases hget : getAt acc.groups i with
    | none => simpa [hget] using h
    | some eg =>
      simp only [hget]
      by_cases hc : g.id ≠ 0 ∧ eg.id ≠ 0
      · rw [if_pos hc]
        intro kv hkv
        rcases List.mem_cons.mp hkv with hkv | hkv
        · subst hkv
          exact ⟨eg, getAt_some_mem hget, rfl⟩
        · exact h kv hkv
      · simpa [hc] using h
  | none =>
    simp only []
    by_cases hid : g.id ≠ 0
    · rw [if_pos hid]
      intro kv hkv
      rcases List.mem_cons.mp hkv with hkv | hkv
      · subst hkv
        exact ⟨_, List.mem_append_right _ (List.mem_singleton_self _), rfl⟩
      · obtain ⟨g', hg', hgid⟩ := h kv hkv
        exact ⟨g', List.mem_append_left _ hg', hgid⟩
    · simp only [hid, if_false]
      intro kv hkv
      obtain ⟨g', hg', hgid⟩ := h kv hkv
      exact ⟨g', List.mem_append_left _ hg', hgid⟩

theorem groupPhase_map_sound (now : String) (gs : List Group) (acc : GAcc)
    (h : MapSound acc.gmap acc.groups) :
    MapSound (groupPhase now gs acc).gmap (groupPhase now gs acc).groups := by
  induction gs generalizing acc with
  | nil => exact h
  | cons g gs ih => exact ih (groupStep now acc g) (groupStep_map_sound now acc g h)

theorem siteStep_ref (gmap : List (Nat × Nat)) (now : String) (G : List Group)
    (acc : SAcc) (s : Site) (hmap : MapSound gmap G)
    (h : SitesRef G acc.sites) : SitesRef G (siteStep gmap now acc s).sites := by
  unfold siteStep
  cases hl : lookupP s.group_id gmap with
  | none => simpa using h
  | some gid =>
    by_cases hg : gid = 0
    · simpa [hg] using h
    · simp only [hg, if_false]
      cases hf : findIdxP (fun t => t.group_id == gid && t.url == s.url) acc.sites with
      | some i =>
        cases hget : getAt acc.sites i with
        | none => simpa [hget] using h
        | some old =>
          simp only [hget]
          intro x hx
          rcases mem_setIdx_cases hx with hmem | hx
          · exact h x hmem
          · subst hx
            exact h old (getAt_some_mem hget)
      | none =>
        simp only []
        intro x hx
        rcases List.mem_append.mp hx with hmem | hx
        · exact h x hmem
        · simp only [List.mem_singleton] at hx
          subst hx
          exact hmap (s.group_id, gid) (lookupP_some_mem hl)

theorem sitePhase_ref (gmap : List (Nat × Nat)) (now : String) (G : List Group)
    (ss : List Site) (acc : SAcc) (hmap : MapSound gmap G)
    (h : SitesRef G acc.sites) :
    SitesRef G (sitePhase gmap now ss acc).sites := by
  induction ss generalizing acc with
  | nil => exact h
  | cons s ss ih =>
    exact ih (siteStep gmap now acc s) (siteStep_ref gmap now G acc s hmap h)

/-- C8 amended: after any successful merge, every live site whose
group_id referred to a live group before the merge still does, and every
merge-created or merge-updated site refers to a live group; hence when
reference integrity holds before the merge it holds for all live sites
after it.  A pre-existing dangling site (obtainable via deleteGroup,
which does not cascade) survives the merge unrepaired. -/
theorem importData_preserves_reference_integrity (d : ExportData)
    (st : MockState) (now : String) (h : RefIntegrity st) :
    RefIntegrity (importData d st now).2 := by
  unfold RefIntegrity importData
  simp only []
  have hmap : MapSound (groupPhase now d.groups ⟨st.groups, [], 0, 0⟩).gmap
      (groupPhase now d.groups ⟨st.groups, [], 0, 0⟩).groups :=
    groupPhase_map_sound now d.groups ⟨st.groups, [], 0, 0⟩ (by intro kv hkv; simp at hkv)
  have hinit : SitesRef (groupPhase now d.groups ⟨st.groups, [], 0, 0⟩).groups st.sites := by
    obtain ⟨t, ht⟩ := groupPhase_groups_extend now d.groups ⟨st.groups, [], 0, 0⟩
    intro s hs
    obtain ⟨g, hg, hgid⟩ := h s hs
    exact ⟨g, by rw [ht]; exact List.mem_append_left _ hg, hgid⟩
  exact sitePhase_ref _ now _ d.sites ⟨st.sites, 0, 0, 0⟩ hmap hinit

/-- Witness for the amended C8 at a concrete store and snapshot. -/
theorem importData_preserves_reference_integrity_witness :
    RefIntegrity (importData dSample stOne "t1").2 :=
  importData_preserves_reference_integrity dSample stOne "t1" (by decide)

theorem mem_setIdx_self {α : Type} {l : List α} {i : Nat} {a b : α}
    (h : getAt l i = some a) : b ∈ setIdx l i b := by
  induction l generalizing i with
  | nil => simp [getAt] at h
  | cons c cs ih =>
    cases i with
    | zero => exact List.mem_cons_self _ _
    | succ j => exact List.mem_cons_of_mem _ (ih h)

theorem siteStep_pairPresent_mono (gmap : List (Nat × Nat)) (now : String)
    (acc : SAcc) (s : Site) {a : Nat} {b : String}
    (h : pairPresent acc.sites a b) :
    pairPresent (siteStep gmap now acc s).sites a b := by
  unfold siteStep
  cases hl : lookupP s.group_id gmap with
  | none => simpa using h
  | some gid =>
    by_cases hg : gid = 0
    · simpa [hg] using h
    · simp only [hg, if_false]
      cases hf : findIdxP (fun t => t.group_id == gid && t.url == s.url) acc.sites with
      | some i =>
        cases hget : getAt acc.sites i with
        | none => simpa [hget] using h
        | some old =>
          simp only [hget]
          exact exists_mem_setIdx hget (fun hq => ⟨hq.1, hq.2⟩) h
      | none =>
        simp only []
        obtain ⟨t, ht, hq⟩ := h
        exact ⟨t, List.mem_append_left _ ht, hq⟩

theorem siteStep_pairPresent_self (gmap : List (Nat × Nat)) (now : String)
    (acc : SAcc) (s : Site) {gid : Nat}
    (hl : lookupP s.group_id gmap = some gid) (hg : gid ≠ 0) :
    pairPresent (siteStep gmap now acc s).sites gid s.url := by
  unfold siteStep
  rw [hl]
  simp only [hg, if_false]
  cases hf : findIdxP (fun t => t.group_id == gid && t.url == s.url) acc.sites with
  | some i =>
    obtain ⟨old, hget, hp⟩ := findIdxP_some_getAt hf
    simp only [hget]
    simp only [Bool.and_eq_true, beq_iff_eq] at hp
    exact ⟨_, mem_setIdx_self hget, hp.1, hp.2⟩
  | none =>
    simp only []
    exact ⟨_, List.mem_append_right _ (List.mem_singleton_self _), rfl, rfl⟩

theorem sitePhase_pairPresent_mono (gmap : List (Nat × Nat)) (now : String)
    (ss : List Site) (acc : SAcc) {a : Nat} {b : String}
    (h : pairPresent acc.sites a b) :
    pairPresent (sitePhase gmap now ss acc).sites a b := by
  induction ss generalizing acc with
  | nil => exact h
  | cons s ss ih =>
    exact ih (siteStep gmap now acc s) (siteStep_pairPresent_mono gmap now acc s h)

theorem sitePhase_establishes (gmap : List (Nat × Nat)) (now : String)
    (ss : List Site) (acc : SAcc) (s : Site) (hs : s ∈ ss) {gid : Nat}
    (hl : lookupP s.group_id gmap = some gid) (hg : gid ≠ 0) :
    pairPresent (sitePhase gmap now ss acc).sites gid s.url := by
  induction ss generalizing acc with
  | nil => simp at hs
  | cons hd tl ih =>
    rcases List.mem_cons.mp hs with hhd | htl
    · subst hhd
      exact sitePhase_pairPresent_mono gmap now tl _
        (siteStep_pairPresent_self gmap now acc s hl hg)
    · exact ih (siteStep gmap now acc hd) htl

theorem sitePhase_all_update (gmap : List (Nat × Nat)) (now : String)
    (ss : List Site) (acc : SAcc)
    (h : ∀ s ∈ ss, ∃ gid, lookupP s.group_id gmap = some gid ∧ gid ≠ 0 ∧
      pairPresent acc.sites gid s.url) :
    (sitePhase gmap now ss acc).created = acc.created ∧
    (sitePhase gmap now ss acc).updated = acc.updated + ss.length ∧
    (sitePhase gmap now ss acc).skipped = acc.skipped := by
  induction ss generalizing acc with
  | nil => exact ⟨rfl, rfl, rfl⟩
  | cons s tl ih =>
    obtain ⟨gid, hl, hg, t, ht, hq1, hq2⟩ := h s (List.mem_cons_self _ _)
    have hpt : (t.group_id == gid && t.url == s.url) = true := by
      simp [hq1, hq2]
    obtain ⟨i, hf⟩ := findIdxP_some_of_mem
      (p := fun x => x.group_id == gid && x.url == s.url) ht hpt
    obtain ⟨old, hget, _⟩ := findIdxP_some_getAt hf
    have hstep : siteStep gmap now acc s =
        { acc with
          sites := setIdx acc.sites i
            { old with name := s.name, icon := s.icon,
                       description := s.description, notes := s.notes,
                       updated_at := now },
          updated := acc.updated + 1 } := by
      unfold siteStep
      rw [hl]
      simp only [hg, if_false, hf, hget]
    have hnext : ∀ s' ∈ tl, ∃ gid', lookupP s'.group_id gmap = some gid' ∧
        gid' ≠ 0 ∧ pairPresent (siteStep gmap now acc s).sites gid' s'.url := by
      intro s' hs'
      obtain ⟨gid', hl', hg', hpp'⟩ := h s' (List.mem_cons_of_mem _ hs')
      exact ⟨gid', hl', hg', siteStep_pairPresent_mono gmap now acc s hpp'⟩
    obtain ⟨h1, h2, h3⟩ := ih (siteStep gmap now acc s) hnext
    have hcons : sitePhase gmap now (s :: tl) acc =
        sitePhase gmap now tl (siteStep gmap now acc s) := rfl
    rw [hcons, h1, h2, h3, hstep]
    simp +arith

theorem groupStep_merge_eq (now : String) (a : GAcc) (g : Group) {i : Nat}
    {eg : Group} (hf : findIdxP (fun x => x.name == g.name) a.groups = some i)
    (hget : getAt a.groups i = some eg) (hc : g.id ≠ 0 ∧ eg.id ≠ 0) :
    groupStep now a g =
      ⟨a.groups, (g.id, eg.id) :: a.gmap, a.created, a.merged + 1⟩ := by
  unfold groupStep
  rw [hf]
  simp only [hget]
  rw [if_pos hc]

theorem groupStep_merge_eq_nomap (now : String) (a : GAcc) (g : Group) {i : Nat}
    {eg : Group} (hf : findIdxP (fun x => x.name == g.name) a.groups = some i)
    (hget : getAt a.groups i = some eg) (hc : ¬(g.id ≠ 0 ∧ eg.id ≠ 0)) :
    groupStep now a g = ⟨a.groups, a.gmap, a.created, a.merged + 1⟩ := by
  unfold groupStep
  rw [hf]
  simp only [hget]
  rw [if_neg hc]

theorem groupStep_create_eq (now : String) (a : GAcc) (g : Group)
    (hf : findIdxP (fun x => x.name == g.name) a.groups = none) :
    groupStep now a g =
      ⟨a.groups ++
         [{ g with id := nextId (a.groups.map (fun x => x.id)),
                   created_at := now, updated_at := now }],
       if g.id ≠ 0 then
         (g.id, nextId (a.groups.map (fun x => x.id))) :: a.gmap
       else a.gmap,
       a.created + 1, a.merged⟩ := by
  unfold groupStep
  rw [hf]

/-- Re-running the group phase of importData over the state its first run
produced (possibly extended) finds every snapshot group by name: the live
groups are untouched, nothing is created, everything is merged, and the
remapping table rebuilt by the second run consists of exactly the entries
the first run added. -/
theorem groupPhase_second (n₁ n₂ : String) (gs : List Group) :
    ∀ (acc : GAcc) (ext : List Group) (m₂ : List (Nat × Nat)) (c₂ mg₂ : Nat),
    (groupPhase n₂ gs ⟨(groupPhase n₁ gs acc).groups ++ ext, m₂, c₂, mg₂⟩).groups =
        (groupPhase n₁ gs acc).groups ++ ext ∧
    (groupPhase n₂ gs ⟨(groupPhase n₁ gs acc).groups ++ ext, m₂, c₂, mg₂⟩).created = c₂ ∧
    (groupPhase n₂ gs ⟨(groupPhase n₁ gs acc).groups ++ ext, m₂, c₂, mg₂⟩).merged =
        mg₂ + gs.length ∧
    ∃ dl, (groupPhase n₁ gs acc).gmap = dl ++ acc.gmap ∧
      (groupPhase n₂ gs ⟨(groupPhase n₁ gs acc).groups ++ ext, m₂, c₂, mg₂⟩).gmap =
        dl ++ m₂ := by
  induction gs with
  | nil =>
    intro acc ext m₂ c₂ mg₂
    exact ⟨rfl, rfl, rfl, [], rfl, rfl⟩
  | cons g gs ih =>
    intro acc ext m₂ c₂ mg₂
    have e₁ : groupPhase n₁ (g :: gs) acc = groupPhase n₁ gs (groupStep n₁ acc g) := rfl
    have e₂ : ∀ a : GAcc, groupPhase n₂ (g :: gs) a = groupPhase n₂ gs (groupStep n₂ a g) :=
      fun _ => rfl
    rw [e₁, e₂]
    cases hf : findIdxP (fun x => x.name == g.name) acc.groups with
    | some i =>
      obtain ⟨eg, hget, hpeg⟩ := findIdxP_some_getAt hf
      have hlt := findIdxP_some_lt hf
      obtain ⟨t, htR⟩ := groupPhase_groups_extend n₁ gs (groupStep n₁ acc g)
      have haccg : (groupStep n₁ acc g).groups = acc.groups := by
        unfold groupStep
        rw [hf]
      have htR' : (groupPhase n₁ gs (groupStep n₁ acc g)).groups = acc.groups ++ t := by
        rw [htR, haccg]
      have hf₂ : findIdxP (fun x => x.name == g.name)
          ((groupPhase n₁ gs (groupStep n₁ acc g)).groups ++ ext) = some i := by
        rw [htR', List.append_assoc]
        exact findIdxP_append_some hf
      have hget₂ : getAt ((groupPhase n₁ gs (groupStep n₁ acc g)).groups ++ ext) i =
          some eg := by
        rw [htR', List.append_assoc, getAt_append_left hlt]
        exact hget
      by_cases hc : g.id ≠ 0 ∧ eg.id ≠ 0
      · have hacc' : groupStep n₁ acc g =
            ⟨acc.groups, (g.id, eg.id) :: acc.gmap, acc.created, acc.merged + 1⟩ :=
          groupStep_merge_eq n₁ acc g hf hget hc
        have hstep₂ : groupStep n₂
            ⟨(groupPhase n₁ gs (groupStep n₁ acc g)).groups ++ ext, m₂, c₂, mg₂⟩ g =
            ⟨(groupPhase n₁ gs (groupStep n₁ acc g)).groups ++ ext,
             (g.id, eg.id) :: m₂, c₂, mg₂ + 1⟩ :=
          groupStep_merge_eq n₂ ⟨_, m₂, c₂, mg₂⟩ g hf₂ hget₂ hc
        rw [hstep₂]
        obtain ⟨ihg, ihc, ihm, dl, ihd1, ihd2⟩ :=
          ih (groupStep n₁ acc g) ext ((g.id, eg.id) :: m₂) c₂ (mg₂ + 1)
        refine ⟨ihg, ihc, ?_, dl ++ [(g.id, eg.id)], ?_, ?_⟩
        · rw [ihm]
          simp +arith [List.length_cons]
        · rw [ihd1, hacc']
          simp
        · rw [ihd2]
          simp
      · have hacc' : groupStep n₁ acc g =
            ⟨acc.groups, acc.gmap, acc.created, acc.merged + 1⟩ :=
          groupStep_merge_eq_nomap n₁ acc g hf hget hc
        have hstep₂ : groupStep n₂
            ⟨(groupPhase n₁ gs (groupStep n₁ acc g)).groups ++ ext, m₂, c₂, mg₂⟩ g =
            ⟨(groupPhase n₁ gs (groupStep n₁ acc g)).groups ++ ext, m₂, c₂, mg₂ + 1⟩ :=
          groupStep_merge_eq_nomap n₂ ⟨_, m₂, c₂, mg₂⟩ g hf₂ hget₂ hc
        rw [hstep₂]
        obtain ⟨ihg, ihc, ihm, dl, ihd1, ihd2⟩ :=
          ih (groupStep n₁ acc g) ext m₂ c₂ (mg₂ + 1)
        refine ⟨ihg, ihc, ?_, dl, ?_, ?_⟩
        · rw [ihm]
          simp +arith [List.length_cons]
        · rw [ihd1, hacc']
        · rw [ihd2]
    | none =>
      have hacc' : groupStep n₁ acc g =
          ⟨acc.groups ++
             [{ g with id := nextId (acc.groups.map (fun x => x.id)),
                       created_at := n₁, updated_at := n₁ }],
           if g.id ≠ 0 then
             (g.id, nextId (acc.groups.map (fun x => x.id))) :: acc.gmap
           else acc.gmap,
           acc.created + 1, acc.merged⟩ :=
        groupStep_create_eq n₁ acc g hf
      obtain ⟨t, htR⟩ := groupPhase_groups_extend n₁ gs (groupStep n₁ acc g)
      have htR' : (groupPhase n₁ gs (groupStep n₁ acc g)).groups =
          (acc.groups ++
             [{ g with id := nextId (acc.groups.map (fun x => x.id)),
                       created_at := n₁, updated_at := n₁ }]) ++ t := by
        rw [htR, hacc']
      have hA : (groupPhase n₁ gs (groupStep n₁ acc g)).groups ++ ext =
          acc.groups ++
            ({ g with id := nextId (acc.groups.map (fun x => x.id)),
                      created_at := n₁, updated_at := n₁ } :: (t ++ ext)) := by
        rw [htR']
        simp
      have hf₂ : findIdxP (fun x => x.name == g.name)
          ((groupPhase n₁ gs (groupStep n₁ acc g)).groups ++ ext) =
          some acc.groups.length := by
        rw [hA]
        exact findIdxP_append_none_cons hf (by simp)
      have hget₂ : getAt ((groupPhase n₁ gs (groupStep n₁ acc g)).groups ++ ext)
          acc.groups.length =
          some { g with id := nextId (acc.groups.map (fun x => x.id)),
                        created_at := n₁, updated_at := n₁ } := by
        rw [hA]
        exact getAt_append_length
      have hN : ({ g with id := nextId (acc.groups.map (fun x => x.id)),
                          created_at := n₁, updated_at := n₁ } : Group).id ≠ 0 := by
        unfold nextId
        exact Nat.succ_ne_zero _
      by_cases hid : g.id ≠ 0
      · have hstep₂ : groupStep n₂
            ⟨(groupPhase n₁ gs (groupStep n₁ acc g)).groups ++ ext, m₂, c₂, mg₂⟩ g =
            ⟨(groupPhase n₁ gs (groupStep n₁ acc g)).groups ++ ext,
             (g.id, nextId (acc.groups.map (fun x => x.id))) :: m₂, c₂, mg₂ + 1⟩ :=
          groupStep_merge_eq n₂ ⟨_, m₂, c₂, mg₂⟩ g hf₂ hget₂ ⟨hid, hN⟩
        rw [hstep₂]
        obtain ⟨ihg, ihc, ihm, dl, ihd1, ihd2⟩ :=
          ih (groupStep n₁ acc g) ext
            ((g.id, nextId (acc.groups.map (fun x => x.id))) :: m₂) c₂ (mg₂ + 1)
        refine ⟨ihg, ihc, ?_,
          dl ++ [(g.id, nextId (acc.groups.map (fun x => x.id)))], ?_, ?_⟩
        · rw [ihm]
          simp +arith [List.length_cons]
        · rw [ihd1, hacc', if_pos hid]
          simp
        · rw [ihd2]
          simp
      · have hstep₂ : groupStep n₂
            ⟨(groupPhase n₁ gs (groupStep n₁ acc g)).groups ++ ext, m₂, c₂, mg₂⟩ g =
            ⟨(groupPhase n₁ gs (groupStep n₁ acc g)).groups ++ ext, m₂, c₂, mg₂ + 1⟩ :=
          groupStep_merge_eq_nomap n₂ ⟨_, m₂, c₂, mg₂⟩ g hf₂ hget₂
            (fun hcc => hid hcc.1)
        rw [hstep₂]
        obtain ⟨ihg, ihc, ihm, dl, ihd1, ihd2⟩ :=
          ih (groupStep n₁ acc g) ext m₂ c₂ (mg₂ + 1)
        refine ⟨ihg, ihc, ?_, dl, ?_, ?_⟩
        · rw [ihm]
          simp +arith [List.length_cons]
        · rw [ihd1, hacc', if_neg hid]
        · rw [ihd2]

/-- C1: importing the same snapshot twice in succession yields, on the
second import, groups.created = 0 with groups.merged = groups.total and
sites.created = 0 with sites.updated = sites.total (and sites.skipped = 0),
provided every snapshot site has a resolved (truthy) entry in the groupMap
built by the second import. -/
theorem importData_idempotent_second_run (d : ExportData) (st : MockState)
    (n₁ n₂ : String)
    (h : ∀ s ∈ d.sites, ∃ gid,
      lookupP s.group_id
        (groupPhase n₂ d.groups ⟨(importData d st n₁).2.groups, [], 0, 0⟩).gmap =
          some gid ∧ gid ≠ 0) :
    (importData d (importData d st n₁).2 n₂).1.stats.groups.created = 0 ∧
    (importData d (importData d st n₁).2 n₂).1.stats.groups.merged =
      (importData d (importData d st n₁).2 n₂).1.stats.groups.total ∧
    (importData d (importData d st n₁).2 n₂).1.stats.sites.created = 0 ∧
    (importData d (importData d st n₁).2 n₂).1.stats.sites.updated =
      (importData d (importData d st n₁).2 n₂).1.stats.sites.total ∧
    (importData d (importData d st n₁).2 n₂).1.stats.sites.skipped = 0 := by
  obtain ⟨hg2, hc2, hm2, dl, hd1, hd2⟩ :=
    groupPhase_second n₁ n₂ d.groups ⟨st.groups, [], 0, 0⟩ [] [] 0 0
  simp only [List.append_nil] at hg2 hc2 hm2 hd1 hd2
  have harg : ∀ s ∈ d.sites, ∃ gid,
      lookupP s.group_id
        (groupPhase n₂ d.groups ⟨(importData d st n₁).2.groups, [], 0, 0⟩).gmap =
          some gid ∧ gid ≠ 0 ∧
      pairPresent (importData d st n₁).2.sites gid s.url := by
    intro s hs
    obtain ⟨gid, hl, hgz⟩ := h s hs
    refine ⟨gid, hl, hgz, ?_⟩
    have hl' : lookupP s.group_id
        (groupPhase n₂ d.groups
          ⟨(groupPhase n₁ d.groups ⟨st.groups, [], 0, 0⟩).groups, [], 0, 0⟩).gmap =
        some gid := hl
    rw [hd2, ← hd1] at hl'
    exact sitePhase_establishes
      (groupPhase n₁ d.groups ⟨st.groups, [], 0, 0⟩).gmap n₁ d.sites
      ⟨st.sites, 0, 0, 0⟩ s hs hl' hgz
  have hsite := sitePhase_all_update
    (groupPhase n₂ d.groups ⟨(importData d st n₁).2.groups, [], 0, 0⟩).gmap
    n₂ d.sites ⟨(importData d st n₁).2.sites, 0, 0, 0⟩ harg
  refine ⟨hc2, hm2.trans (Nat.zero_add _), hsite.1,
    hsite.2.1.trans (Nat.zero_add _), hsite.2.2⟩

/-- Witness for C1: the sample snapshot imported twice into the sample
store; on the second run every counter is as the idempotence property
requires. -/
theorem importData_idempotent_second_run_witness :
    (importData dSample (importData dSample stOne "t1").2 "t2").1.stats.groups.created = 0 ∧
    (importData dSample (importData dSample stOne "t1").2 "t2").1.stats.groups.merged =
      (importData dSample (importData dSample stOne "t1").2 "t2").1.stats.groups.total ∧
    (importData dSample (importData dSample stOne "t1").2 "t2").1.stats.sites.created = 0 ∧
    (importData dSample (importData dSample stOne "t1").2 "t2").1.stats.sites.updated =
      (importData dSample (importData dSample stOne "t1").2 "t2").1.stats.sites.total ∧
    (importData dSample (importData dSample stOne "t1").2 "t2").1.stats.sites.skipped = 0 := by
  refine importData_idempotent_second_run dSample stOne "t1" "t2" ?_
  intro s hs
  have hs' : s = ⟨4, 9, "X2", "http://x", "ic2", "de2", "no2", 1, 2, "s0", "s0"⟩ := by
    simpa [dSample] using hs
  subst hs'
  exact ⟨1, by decide, by decide⟩

end Navihive
